import Mathlib

/-!
# SesEmailForwarder: the mail forwarding pipeline of `main.go`

A shallow embedding of `Handler`, `forwardMail`, `skipHeader` and `getFromS3`.

* A Go `string` or `[]byte` is a `Str`: a list with one `Char` per byte, so that the
  ASCII literals of the source read as they do there.
* A Go call either returns or panics (`log.Panicln` logs and then panics): `Exec`.
* The two AWS clients, `mail.ReadMessage`, `mail.ParseAddress`, `(*mail.Address).String`
  and `fmt.Sprintf` with a run-time format are parameters of the embedding (`Env`).
  The calls made to the two clients are recorded as a list of `Event`s, and each client
  call may depend on the calls made before it.
* `Header.Get`, `strings.Count`, `fmt.Fprintf` with the three constant formats of the
  source and the payload of `log.Panicln` are modelled directly.
* `fmtSprintf` and `mailAddressString` model `fmt.Sprintf` and `String` on the inputs
  for which a result is settled below; the concrete worlds of the examples use them.
* A composed message is read back with `readHeaderLines`: the CRLF-terminated lines up to
  the first empty line, and the bytes after it.
-/

set_option autoImplicit false
set_option linter.dupNamespace false
set_option maxRecDepth 100000

namespace SesEmailForwarder

/-- A Go string or byte slice, one `Char` per byte. -/
abbrev Str := List Char

/-- How a Go call ends: it returns a value, or it panics with a payload. -/
inductive Exec (α : Type) where
  | ret (a : α)
  | panic (v : Str)
deriving DecidableEq, Repr

/-- The struct `mail.Address`. -/
structure Address where
  Name : Str
  Address : Str
deriving DecidableEq, Repr

/-- The map `mail.Header` (`map[string][]string`) as its entries, in the order in which
`range` visits them. -/
abbrev MIMEHeader := List (Str × List Str)

/-- An `io.Reader` read to its end: the bytes it yields, and the error that ends the
stream (`none` for a clean EOF). -/
structure Reader where
  data : Str
  err : Option Str
deriving DecidableEq, Repr

/-- The struct `mail.Message`. -/
structure Message where
  Header : MIMEHeader
  Body : Reader
deriving DecidableEq, Repr

/-- The fields of `events.SimpleEmailRecord` that `main.go` reads (`SES.Mail.*`). -/
structure SimpleEmailRecord where
  Source : Str
  Destination : List Str
  MessageID : Str
deriving DecidableEq, Repr

/-- The struct `events.SimpleEmailEvent`. -/
structure SimpleEmailEvent where
  Records : List SimpleEmailRecord
deriving DecidableEq, Repr

/-- A call made to one of the two service clients. -/
inductive Event where
  | GetObject (bucket key : Str)
  | SendRawEmail (data : Str)
deriving DecidableEq, Repr

/-- Everything `main.go` calls but does not define. The client calls see the calls made
so far. Errors are carried as their message (`err.Error()`). -/
structure Env where
  /-- Value of `os.Getenv("S3_BUCKET")`. -/
  S3_BUCKET : Str
  /-- Value of `os.Getenv("FORWARD_TO")`. -/
  FORWARD_TO : Str
  /-- Call `s3Client.GetObject` with a bucket and a key: the object body or an error. -/
  GetObject : List Event → Str → Str → Except Str Reader
  /-- Call `mail.ReadMessage`. -/
  ReadMessage : Reader → Except Str Message
  /-- Call `mail.ParseAddress`. -/
  ParseAddress : Str → Except Str Address
  /-- Call `fmt.Sprintf(format, a)` with one string operand. -/
  Sprintf : Str → Str → Str
  /-- Method `(*mail.Address).String`. -/
  AddressString : Address → Str
  /-- Call `sesClient.SendRawEmail` with the raw message: nil or an error. -/
  SendRawEmail : List Event → Str → Except Str Unit

/-! ## Standard library calls modelled directly -/

/-- Function `validHeaderFieldByte` of `net/textproto`: the token characters of RFC 7230. -/
def validHeaderFieldByte (c : Char) : Bool :=
  c.isAlphanum || "!#$%&'*+-.^_`|~".toList.contains c

/-- The second loop of `canonicalMIMEHeaderKey`: upper case for the first letter and for
a letter after a dash, lower case for the other letters. -/
def canonicalMIMEHeaderKey.loop : Bool → Str → Str
  | _, [] => []
  | upper, c :: a =>
    let c1 := if upper && c.isLower then c.toUpper
      else if !upper && c.isUpper then c.toLower else c
    c1 :: canonicalMIMEHeaderKey.loop (c1 == '-') a

/-- Function `canonicalMIMEHeaderKey` of `net/textproto`: a key with a byte that is not a
token character (a space included) is returned unchanged. -/
def canonicalMIMEHeaderKey (a : Str) : Str :=
  if a.all validHeaderFieldByte then canonicalMIMEHeaderKey.loop true a else a

/-- The quick check of `textproto.CanonicalMIMEHeaderKey`: the key is returned as it is
unless a letter in the wrong case is met before any invalid byte. -/
def CanonicalMIMEHeaderKey.scan (s : Str) : Bool → Str → Str
  | _, [] => s
  | upper, c :: rest =>
    if !validHeaderFieldByte c then s
    else if upper && c.isLower then canonicalMIMEHeaderKey s
    else if !upper && c.isUpper then canonicalMIMEHeaderKey s
    else CanonicalMIMEHeaderKey.scan s (c == '-') rest

/-- Function `textproto.CanonicalMIMEHeaderKey`. -/
def CanonicalMIMEHeaderKey (s : Str) : Str :=
  CanonicalMIMEHeaderKey.scan s true s

/-- Method `mail.Header.Get`: the first value stored under the canonical form of `key`,
or the empty string. -/
def MIMEHeader.Get (h : MIMEHeader) (key : Str) : Str :=
  match List.lookup (CanonicalMIMEHeaderKey key) h with
  | some (v :: _) => v
  | _ => []

/-- Function `strings.HasPrefix`. -/
def HasPrefix : Str → Str → Bool
  | _, [] => true
  | [], _ :: _ => false
  | c :: s, d :: p => c == d && HasPrefix s p

/-- The loop of `strings.Count` for a non-empty `substr`: `skip` bytes of the occurrence
just counted are still to be stepped over. -/
def Count.loop (substr : Str) : Nat → Str → Nat
  | _, [] => 0
  | skip + 1, _ :: s => Count.loop substr skip s
  | 0, c :: s =>
    if HasPrefix (c :: s) substr then Count.loop substr (substr.length - 1) s + 1
    else Count.loop substr 0 s

/-- Function `strings.Count(s, substr)` for a non-empty `substr`: the number of
non-overlapping occurrences of `substr` in `s`. -/
def Count (s substr : Str) : Nat :=
  Count.loop substr 0 s

/-- Payload of `log.Panicln(msg, err)`: `fmt.Sprintln` puts a space between the operands
and a newline at the end. -/
def Panicln (msg err : Str) : Str :=
  msg ++ " ".toList ++ err ++ "\n".toList

/-- Call `fmt.Fprintf(newMail, "%s: %s\r\n", h, v)` (and the same with a constant name):
the buffer after the write. -/
def Fprintf (newMail h v : Str) : Str :=
  newMail ++ (h ++ ": ".toList ++ v ++ "\r\n".toList)

/-! ## The functions of `main.go` -/

/-- Function `skipHeader`. -/
def skipHeader (h : Str) : Bool :=
  h == "To".toList || h == "Cc".toList || h == "Bcc".toList || h == "From".toList
    || h == "Reply-To".toList || h == "Return-Path".toList

/-- Function `getFromS3`: `log.Panicln` panics before the error return that follows it. -/
def getFromS3 (E : Env) (original : SimpleEmailRecord) (past : List Event) :
    Exec (Except Str Reader) × List Event :=
  let bucket := E.S3_BUCKET
  let now := past ++ [Event.GetObject bucket original.MessageID]
  match E.GetObject past bucket original.MessageID with
  | .error err => (.panic (Panicln "Error getting mail from S3: ".toList err), now)
  | .ok obj => (.ret (.ok obj), now)

/-- Lines 86 to 96 of `forwardMail`: the string that is parsed as the new From address. -/
def forwardMail.from (E : Env) (parsedMail : Message) : Str :=
  let orgFrom : Address :=
    match E.ParseAddress (parsedMail.Header.Get "From".toList) with
    | .ok a => a
    | .error _ => ⟨[], []⟩
  let from0 := parsedMail.Header.Get "To".toList
  if Count from0 "%s".toList = 1 then E.Sprintf from0 orgFrom.Name else from0

/-- Lines 107 to 112 of `forwardMail`: the loop over the keys of the header map. -/
def forwardMail.copyHeaders (hdr : MIMEHeader) : List (Str × List Str) → Str → Str
  | [], newMail => newMail
  | (h, _) :: rest, newMail =>
    if skipHeader h then forwardMail.copyHeaders hdr rest newMail
    else forwardMail.copyHeaders hdr rest (Fprintf newMail h (hdr.Get h))

/-- Lines 121 to 124 of `forwardMail`: the value written as Reply-To. -/
def forwardMail.rt (parsedMail : Message) : Str :=
  let rt := parsedMail.Header.Get "Reply-To".toList
  if rt = [] then parsedMail.Header.Get "From".toList else rt

/-- Lines 104 to 129 of `forwardMail`: the buffer `newMail` after `ReadFrom`. -/
def forwardMail.newMail (E : Env) (parsedMail : Message) (addrFrom addrTo : Address) : Str :=
  let newMail := forwardMail.copyHeaders parsedMail.Header parsedMail.Header []
  let newMail := Fprintf newMail "From".toList (E.AddressString addrFrom)
  let newMail := Fprintf newMail "To".toList (E.AddressString addrTo)
  let newMail := Fprintf newMail "Reply-To".toList (forwardMail.rt parsedMail)
  let newMail := newMail ++ "\r\n".toList
  newMail ++ parsedMail.Body.data

/-- Function `forwardMail`: the result (a returned `error`, `none` for nil, or a panic)
and the client calls made so far. -/
def forwardMail (E : Env) (original : SimpleEmailRecord) (past : List Event) :
    Exec (Option Str) × List Event :=
  match getFromS3 E original past with
  | (.panic v, now) => (.panic v, now)
  | (.ret (.error err), now) => (.ret (some err), now)
  | (.ret (.ok s3Mail), now) =>
    match E.ReadMessage s3Mail with
    | .error err => (.panic (Panicln "Error reading message from S3: ".toList err), now)
    | .ok parsedMail =>
      match E.ParseAddress E.FORWARD_TO with
      | .error err => (.panic (Panicln "Error parsing FORWARD_TO address: ".toList err), now)
      | .ok addrTo =>
        match E.ParseAddress (forwardMail.from E parsedMail) with
        | .error err =>
          (.panic (Panicln "Error parsing FORWARD_FROM address: ".toList err), now)
        | .ok addrFrom =>
          let newMail := forwardMail.newMail E parsedMail addrFrom addrTo
          match parsedMail.Body.err with
          | some err => (.panic (Panicln "Error reading mail body: ".toList err), now)
          | none =>
            match E.SendRawEmail now newMail with
            | .error err =>
              (.panic (Panicln "Error sending mail: ".toList err),
                now ++ [Event.SendRawEmail newMail])
            | .ok _ => (.ret none, now ++ [Event.SendRawEmail newMail])

/-- The loop of `Handler` over `event.Records`. -/
def Handler.loop (E : Env) : List SimpleEmailRecord → List Event →
    Exec (Option Str) × List Event
  | [], past => (.ret none, past)
  | sesMail :: rest, past =>
    match forwardMail E sesMail past with
    | (.ret none, now) => Handler.loop E rest now
    | (.ret (some err), now) => (.ret (some err), now)
    | (.panic v, now) => (.panic v, now)

/-- Function `Handler`. -/
def Handler (E : Env) (event : SimpleEmailEvent) (past : List Event) :
    Exec (Option Str) × List Event :=
  Handler.loop E event.Records past

/-! ## Models of the two standard library calls that `Env` leaves open

Both are written for the inputs on which their result is settled here; on any other
input they give `none`. -/

/-- Text that `doPrintf` appends when the one operand was not used by any verb. -/
def fmtSprintf.extra (arg : Str) (argNum : Nat) : Str :=
  if argNum < 1 then "%!(EXTRA string=".toList ++ arg ++ ")".toList else []

/-- Method `badVerb` of `fmt` for a string operand: `%!verb(string=arg)`. -/
def fmtSprintf.badVerb (verb : Char) (arg : Str) : Str :=
  "%!".toList ++ [verb] ++ "(string=".toList ++ arg ++ ")".toList

/-- Method `missingArg` of `fmt`: `%!verb(MISSING)`. -/
def fmtSprintf.missingArg (verb : Char) : Str :=
  "%!".toList ++ [verb] ++ "(MISSING)".toList

/-- The bytes after a percent sign that start a flag, a width, a precision or an
argument index. -/
def fmtSprintf.isComplex (c : Char) : Bool :=
  "#0+- 123456789.*[".toList.contains c

/-- The loop of `doPrintf` in `fmt` for one string operand, `argNum` operands used so
far. A directive is a percent sign and one ASCII verb; a directive with a flag, a width,
a precision or an index, a verb that is not ASCII, and the verbs q, x, X and w are not
modelled (`none`). -/
def fmtSprintf.doPrintf (arg : Str) : Str → Nat → Option Str
  | [], argNum => some (fmtSprintf.extra arg argNum)
  | c :: rest, argNum =>
    if c ≠ '%' then (fmtSprintf.doPrintf arg rest argNum).map (fun out => c :: out)
    else
      match rest with
      | [] => some ("%!(NOVERB)".toList ++ fmtSprintf.extra arg argNum)
      | verb :: rest =>
        if fmtSprintf.isComplex verb || !(verb.toNat < 128)
            || "qxXw".toList.contains verb then none
        else if verb = '%' then
          (fmtSprintf.doPrintf arg rest argNum).map (fun out => '%' :: out)
        else if ¬ argNum < 1 then
          (fmtSprintf.doPrintf arg rest argNum).map
            (fun out => fmtSprintf.missingArg verb ++ out)
        else if verb = 's' ∨ verb = 'v' then
          (fmtSprintf.doPrintf arg rest (argNum + 1)).map (fun out => arg ++ out)
        else if verb = 'T' then
          (fmtSprintf.doPrintf arg rest (argNum + 1)).map (fun out => "string".toList ++ out)
        else
          (fmtSprintf.doPrintf arg rest (argNum + 1)).map
            (fun out => fmtSprintf.badVerb verb arg ++ out)

/-- Call `fmt.Sprintf(format, arg)` with one string operand, where modelled. -/
def fmtSprintf (format arg : Str) : Option Str :=
  fmtSprintf.doPrintf arg format 0

/-- Function `isVchar` of `net/mail` on an ASCII byte. -/
def isVchar (r : Char) : Bool :=
  '!' ≤ r && r ≤ '~'

/-- Function `isAtext` of `net/mail` with `dot = false`, on an ASCII byte. -/
def isAtext (r : Char) : Bool :=
  if r = '.' then false
  else if "()<>[]:;@\\,\"".toList.contains r then false
  else isVchar r

/-- Function `quoteString` of `net/mail` on ASCII text. -/
def quoteString (s : Str) : Str :=
  ['"'] ++ s.flatMap (fun r =>
    if (r ≠ '\\' ∧ r ≠ '"' ∧ isVchar r) ∨ r = ' ' ∨ r = '\t' then [r]
    else if isVchar r then ['\\', r] else []) ++ ['"']

/-- The loop of `String` that decides whether the local part is quoted: `prev` is the
byte before `r`, if any. -/
def mailAddressString.quoteLocal : Option Char → Str → Bool
  | _, [] => false
  | prev, r :: rest =>
    if isAtext r then mailAddressString.quoteLocal (some r) rest
    else if r = '.' ∧ prev.isSome ∧ prev ≠ some '.' ∧ rest ≠ [] then
      mailAddressString.quoteLocal (some r) rest
    else true

/-- The split of `String` at `strings.LastIndex(a.Address, "@")`: the local part and the
domain, or `none` when there is no at sign. -/
def mailAddressString.split : Str → Option (Str × Str)
  | [] => none
  | c :: s =>
    match mailAddressString.split s with
    | some (l, d) => some (c :: l, d)
    | none => if c = '@' then some ([], s) else none

/-- Method `(*mail.Address).String` for an ASCII address with an empty `Name`; the
formatting of a display name is not modelled (`none`). -/
def mailAddressString (a : Address) : Option Str :=
  if a.Name = [] ∧ a.Address.all (fun c => c.toNat < 128) then
    let (l, domain) := (mailAddressString.split a.Address).getD (a.Address, [])
    let l := if mailAddressString.quoteLocal none l then quoteString l else l
    some ("<".toList ++ l ++ "@".toList ++ domain ++ ">".toList)
  else none

/-! ## Reading a composed message back -/

/-- Splits at the first CRLF: the line before it and the bytes after it. -/
def readLine : Str → Option (Str × Str)
  | [] => none
  | c :: s =>
    if c = '\r' ∧ s.head? = some '\n' then some ([], s.tail)
    else (readLine s).map (fun p => (c :: p.1, p.2))

/-- Reads lines until the first empty one, at most `fuel` of them. -/
def readHeaderLines.loop : Nat → Str → Option (List Str × Str)
  | 0, _ => none
  | fuel + 1, msg =>
    match readLine msg with
    | none => none
    | some ([], rest) => some ([], rest)
    | some (line, rest) => (readHeaderLines.loop fuel rest).map (fun p => (line :: p.1, p.2))

/-- The header lines of a raw message (without their CRLF) and the bytes after the
empty line that ends the header. -/
def readHeaderLines (msg : Str) : Option (List Str × Str) :=
  readHeaderLines.loop msg.length msg

/-- The name of a header line: the bytes before its first colon. -/
def lineName (line : Str) : Str :=
  line.takeWhile (fun c => c != ':')

/-- The value of a header line: the bytes after its first colon and the space after it. -/
def lineValue (line : Str) : Str :=
  (line.dropWhile (fun c => c != ':')).drop 2

/-! ## What the parser guarantees, and when `forwardMail` reaches the relay -/

/-- What `mail.ReadMessage` guarantees of the header map it returns: the keys are
distinct (it is a map) and canonical, a key holds no colon and no line feed, and a value
holds no line feed. -/
def MIMEHeader.Parsed (h : MIMEHeader) : Prop :=
  (h.map Prod.fst).Nodup ∧
    ∀ e ∈ h, CanonicalMIMEHeaderKey e.1 = e.1 ∧ ':' ∉ e.1 ∧ '\n' ∉ e.1 ∧ ∀ v ∈ e.2, '\n' ∉ v

instance (h : MIMEHeader) : Decidable h.Parsed := by
  unfold MIMEHeader.Parsed; infer_instance

/-- The run of `forwardMail` on `original` reaches line 142: the object is fetched and
parsed to `parsedMail`, both addresses parse, and the body is read to its end. -/
def Composes (E : Env) (original : SimpleEmailRecord) (past : List Event)
    (parsedMail : Message) (addrFrom addrTo : Address) : Prop :=
  (∃ s3Mail, E.GetObject past E.S3_BUCKET original.MessageID = .ok s3Mail
      ∧ E.ReadMessage s3Mail = .ok parsedMail)
    ∧ E.ParseAddress E.FORWARD_TO = .ok addrTo
    ∧ E.ParseAddress (forwardMail.from E parsedMail) = .ok addrFrom
    ∧ parsedMail.Body.err = none

/-- The lines that the loop over the header map writes for `entries`. -/
def keptLines (hdr : MIMEHeader) (entries : List (Str × List Str)) : List Str :=
  (entries.filter (fun e => !skipHeader e.1)).map (fun e => e.1 ++ ": ".toList ++ hdr.Get e.1)

/-- Lines written one after the other, each with its CRLF. -/
def writeLines (lines : List Str) : Str :=
  lines.flatMap (fun l => l ++ "\r\n".toList)

/-- The header lines of the composed message, in the order in which they are written. -/
def composedLines (E : Env) (parsedMail : Message) (addrFrom addrTo : Address) : List Str :=
  keptLines parsedMail.Header parsedMail.Header ++
    ["From: ".toList ++ E.AddressString addrFrom, "To: ".toList ++ E.AddressString addrTo,
     "Reply-To: ".toList ++ forwardMail.rt parsedMail]

/-! ## Concrete worlds for the examples -/

/-- A world for the examples. `bucket` lists the objects by key, `parses` what
`mail.ReadMessage` makes of an object body, `addresses` what `mail.ParseAddress` returns
for the strings it accepts. `Sprintf` and `String` are the two models above, with the
empty string where they are not defined. -/
def world (forwardTo : Str) (bucket : List (Str × Reader)) (parses : List (Reader × Message))
    (addresses : List (Str × Address)) (relay : Str → Except Str Unit) : Env where
  S3_BUCKET := "mail.clearbyte.io".toList
  FORWARD_TO := forwardTo
  GetObject := fun _ _ key =>
    match List.lookup key bucket with
    | some o => .ok o
    | none => .error "NoSuchKey".toList
  ReadMessage := fun r =>
    match List.lookup r parses with
    | some m => .ok m
    | none => .error "malformed MIME header line".toList
  ParseAddress := fun s =>
    match List.lookup s addresses with
    | some a => .ok a
    | none => .error "mail: missing '@' or angle-addr".toList
  Sprintf := fun format a => (fmtSprintf format a).getD []
  AddressString := fun a => (mailAddressString a).getD []
  SendRawEmail := fun _ data => relay data

/-- The record of `TestHandler`. -/
def testRecord : SimpleEmailRecord :=
  ⟨[], [[]], "041n4ufhc6scginva7u891k30jildtiht5esvs81".toList⟩

/-- A second record, for batches of two. -/
def secondRecord : SimpleEmailRecord :=
  ⟨[], [[]], "second".toList⟩

/-- The three headers of `TestHandler`. -/
def testHeader : MIMEHeader :=
  [("From".toList, ["bubba@example.com".toList]), ("To".toList, ["ttt@example.com".toList]),
   ("Subject".toList, ["Test".toList])]

/-- A message with the three headers of `TestHandler` and a body. -/
def testMessage (body : Str) : Message :=
  ⟨testHeader, ⟨body, none⟩⟩

/-- The message that the code composes from the test message: the `Subject` line, the
three recomputed lines, the empty line and the body. -/
def testForwarded (body : Str) : Str :=
  "Subject: Test\r\nFrom: <ttt@example.com>\r\nTo: <john@clearbyte.com>\r\n".toList
    ++ "Reply-To: bubba@example.com\r\n\r\n".toList ++ body

/-- The test message with a `From` header that is not an address. -/
def senderless : Message :=
  ⟨[("From".toList, ["nobody".toList]), ("To".toList, ["ttt@example.com".toList]),
    ("Subject".toList, ["Test".toList])], ⟨"hi".toList, none⟩⟩

/-- What `mail.ParseAddress` returns in the examples for the strings it accepts. -/
def addressBook : List (Str × Address) :=
  [("john@clearbyte.com".toList, ⟨[], "john@clearbyte.com".toList⟩),
   ("ttt@example.com".toList, ⟨[], "ttt@example.com".toList⟩),
   ("bubba@example.com".toList, ⟨[], "bubba@example.com".toList⟩),
   ("Alice <alice@example.com>".toList, ⟨"Alice".toList, "alice@example.com".toList⟩),
   ("relay@example.com".toList, ⟨[], "relay@example.com".toList⟩)]

/-- A world with two stored messages and a relay that accepts: `senderless` under the key
of `testRecord`, the test message under the key of `secondRecord`. -/
def twoMessages : Env :=
  world "john@clearbyte.com".toList
    [(testRecord.MessageID, ⟨"raw 1".toList, none⟩),
     (secondRecord.MessageID, ⟨"raw 2".toList, none⟩)]
    [(⟨"raw 1".toList, none⟩, senderless), (⟨"raw 2".toList, none⟩, testMessage "hi".toList)]
    addressBook (fun _ => .ok ())

/-- A relay that checks the `Reply-To` header of a raw message: it rejects the message
when a `Reply-To` line holds no at sign. -/
def strictRelay (data : Str) : Except Str Unit :=
  match readHeaderLines data with
  | none => .error "InvalidParameterValue: Missing final '@domain'".toList
  | some (lines, _) =>
    if lines.any (fun l => lineName l == "Reply-To".toList && !(lineValue l).contains '@')
    then .error "InvalidParameterValue: Missing final '@domain'".toList
    else .ok ()

/-- The world `twoMessages` with the relay `strictRelay`. -/
def twoMessagesStrict : Env :=
  world "john@clearbyte.com".toList
    [(testRecord.MessageID, ⟨"raw 1".toList, none⟩),
     (secondRecord.MessageID, ⟨"raw 2".toList, none⟩)]
    [(⟨"raw 1".toList, none⟩, senderless), (⟨"raw 2".toList, none⟩, testMessage "hi".toList)]
    addressBook strictRelay

/-- A world with `forwardTo` as `FORWARD_TO` and one message, stored under the key of
`testRecord`. -/
def mailWorld (forwardTo : Str) (m : Message) (relay : Str → Except Str Unit) : Env :=
  world forwardTo [(testRecord.MessageID, ⟨"raw".toList, none⟩)] [(⟨"raw".toList, none⟩, m)]
    addressBook relay

/-- The world of `TestHandler`: `FORWARD_TO=john@clearbyte.com`, the message stored
under the record's key, a relay that accepts. -/
def testWorld (body : Str) : Env :=
  mailWorld "john@clearbyte.com".toList (testMessage body) (fun _ => .ok ())

/-- A message whose `To` header holds `%s` once and a second percent sign, from a sender
with the display name Alice. -/
def percentMessage (toValue : Str) : Message :=
  ⟨[("From".toList, ["Alice <alice@example.com>".toList]), ("To".toList, [toValue]),
    ("Subject".toList, ["Test".toList])], ⟨"hi".toList, none⟩⟩

/-- What the claim C3 describes for one occurrence: `t` with its first `%s` replaced by
`n` and the rest unchanged (`strings.Replace(t, "%s", n, 1)`). -/
def substituteName : Str → Str → Str
  | [], _ => []
  | c :: t, n =>
    if HasPrefix (c :: t) "%s".toList then n ++ t.tail else c :: substituteName t n

/-- The test message with a `Received` header that occurs twice. -/
def twiceReceived : Message :=
  ⟨[("Received".toList, ["from a".toList, "from b".toList]),
    ("From".toList, ["bubba@example.com".toList]), ("To".toList, ["ttt@example.com".toList]),
    ("Subject".toList, ["Test".toList])], ⟨"hi".toList, none⟩⟩

/-! ## Lemmas -/

theorem crlf_def : "\r\n".toList = ['\r', '\n'] := rfl

theorem readLine_cons (c : Char) (s : Str) :
    readLine (c :: s) = if c = '\r' ∧ s.head? = some '\n' then some ([], s.tail)
      else (readLine s).map (fun p => (c :: p.1, p.2)) := rfl

theorem readLine_line (l rest : Str) (h : '\n' ∉ l) :
    readLine (l ++ "\r\n".toList ++ rest) = some (l, rest) := by
  induction l with
  | nil =>
    show readLine ('\r' :: '\n' :: rest) = some ([], rest)
    rw [readLine_cons]
    simp
  | cons c l ih =>
    have hl : '\n' ∉ l := fun e => h (List.mem_cons_of_mem _ e)
    have hno : ¬ (c = '\r' ∧ (l ++ "\r\n".toList ++ rest).head? = some '\n') := by
      rintro ⟨_, h2⟩
      cases l with
      | nil => simp [crlf_def] at h2
      | cons d l =>
        simp at h2
        exact hl (by simp [h2])
    show readLine (c :: (l ++ "\r\n".toList ++ rest)) = some (c :: l, rest)
    rw [readLine_cons, if_neg hno, ih hl]
    rfl

theorem readHeaderLines_loop_writeLines (body : Str) :
    ∀ (lines : List Str), (∀ l ∈ lines, l ≠ [] ∧ '\n' ∉ l) →
      ∀ fuel, lines.length < fuel →
        readHeaderLines.loop fuel (writeLines lines ++ "\r\n".toList ++ body)
          = some (lines, body) := by
  intro lines
  induction lines with
  | nil =>
    intro _ fuel hf
    cases fuel with
    | zero => simp at hf
    | succ fuel =>
      have h := readLine_line [] body (by simp)
      show readHeaderLines.loop (fuel + 1) ([] ++ "\r\n".toList ++ body) = some ([], body)
      simp only [readHeaderLines.loop, h]
  | cons l ls ih =>
    intro hl fuel hf
    cases fuel with
    | zero => simp at hf
    | succ fuel =>
      have hl1 := hl l (by simp)
      have h := readLine_line l (writeLines ls ++ "\r\n".toList ++ body) hl1.2
      have hw : writeLines (l :: ls) ++ "\r\n".toList ++ body
          = l ++ "\r\n".toList ++ (writeLines ls ++ "\r\n".toList ++ body) := by
        simp only [writeLines, List.flatMap_cons, List.append_assoc]
      rw [hw]
      have ih2 := ih (fun x hx => hl x (List.mem_cons_of_mem _ hx)) fuel
        (by simp only [List.length_cons] at hf; omega)
      cases l with
      | nil => exact absurd rfl hl1.1
      | cons c l =>
        simp only [readHeaderLines.loop, h, ih2]
        rfl

theorem length_writeLines_ge (lines : List Str) :
    lines.length ≤ (writeLines lines).length := by
  induction lines with
  | nil => simp [writeLines]
  | cons l ls ih =>
    simp only [writeLines, List.flatMap_cons, List.length_append, List.length_cons,
      crlf_def, List.length_nil] at ih ⊢
    omega

theorem readHeaderLines_writeLines (lines : List Str) (body : Str)
    (hl : ∀ l ∈ lines, l ≠ [] ∧ '\n' ∉ l) :
    readHeaderLines (writeLines lines ++ "\r\n".toList ++ body) = some (lines, body) := by
  unfold readHeaderLines
  apply readHeaderLines_loop_writeLines body lines hl
  have := length_writeLines_ge lines
  simp only [List.length_append, crlf_def, List.length_cons, List.length_nil]
  omega

theorem copyHeaders_eq (hdr : MIMEHeader) :
    ∀ (entries : List (Str × List Str)) (newMail : Str),
      forwardMail.copyHeaders hdr entries newMail
        = newMail ++ writeLines (keptLines hdr entries) := by
  intro entries
  induction entries with
  | nil => intro newMail; simp [forwardMail.copyHeaders, keptLines, writeLines]
  | cons e rest ih =>
    intro newMail
    obtain ⟨h, vs⟩ := e
    by_cases hs : skipHeader h = true
    · simp only [forwardMail.copyHeaders, hs, if_true, ih]
      simp [keptLines, hs]
    · simp only [forwardMail.copyHeaders, hs, ih, Fprintf]
      simp [keptLines, writeLines, hs]

theorem newMail_eq (E : Env) (parsedMail : Message) (addrFrom addrTo : Address) :
    forwardMail.newMail E parsedMail addrFrom addrTo
      = writeLines (composedLines E parsedMail addrFrom addrTo) ++ "\r\n".toList
        ++ parsedMail.Body.data := by
  have h1 : ∀ x : Str, "From".toList ++ (": ".toList ++ x) = "From: ".toList ++ x :=
    fun _ => rfl
  have h2 : ∀ x : Str, "To".toList ++ (": ".toList ++ x) = "To: ".toList ++ x :=
    fun _ => rfl
  have h3 : ∀ x : Str, "Reply-To".toList ++ (": ".toList ++ x) = "Reply-To: ".toList ++ x :=
    fun _ => rfl
  simp only [forwardMail.newMail, copyHeaders_eq, Fprintf, composedLines, writeLines,
    List.flatMap_append, List.flatMap_cons, List.flatMap_nil, List.append_assoc,
    List.nil_append, List.append_nil, h1, h2, h3]

theorem forwardMail_of_composes (E : Env) (original : SimpleEmailRecord) (past : List Event)
    (parsedMail : Message) (addrFrom addrTo : Address)
    (h : Composes E original past parsedMail addrFrom addrTo) :
    forwardMail E original past =
      (match E.SendRawEmail (past ++ [Event.GetObject E.S3_BUCKET original.MessageID])
          (forwardMail.newMail E parsedMail addrFrom addrTo) with
        | .error err => .panic (Panicln "Error sending mail: ".toList err)
        | .ok _ => .ret none,
       past ++ [Event.GetObject E.S3_BUCKET original.MessageID,
         Event.SendRawEmail (forwardMail.newMail E parsedMail addrFrom addrTo)]) := by
  obtain ⟨⟨s3Mail, hget, hread⟩, hto, hfrom, hbody⟩ := h
  simp only [forwardMail, getFromS3, hget, hread, hto, hfrom, hbody]
  cases E.SendRawEmail (past ++ [Event.GetObject E.S3_BUCKET original.MessageID])
    (forwardMail.newMail E parsedMail addrFrom addrTo) <;> simp

theorem mem_of_lookup {k : Str} {vs : List Str} :
    ∀ {l : List (Str × List Str)}, List.lookup k l = some vs → (k, vs) ∈ l := by
  intro l
  induction l with
  | nil => intro h; simp [List.lookup] at h
  | cons e rest ih =>
    intro h
    obtain ⟨k1, v1⟩ := e
    by_cases hk : k = k1
    · subst hk
      simp [List.lookup] at h
      simp [h]
    · have hb : (k == k1) = false := by simpa using hk
      simp only [List.lookup, hb] at h
      exact List.mem_cons_of_mem _ (ih h)

theorem lookup_of_mem {k : Str} {vs : List Str} :
    ∀ {l : List (Str × List Str)}, (l.map Prod.fst).Nodup → (k, vs) ∈ l →
      List.lookup k l = some vs := by
  intro l
  induction l with
  | nil => intro _ h; simp at h
  | cons e rest ih =>
    intro hnd h
    obtain ⟨k1, v1⟩ := e
    simp only [List.map_cons, List.nodup_cons] at hnd
    rcases List.mem_cons.mp h with h | h
    · injection h with h1 h2
      subst h1; subst h2
      simp [List.lookup]
    · have hk : k ≠ k1 := by
        intro hk
        exact hnd.1 (List.mem_map.mpr ⟨(k, vs), h, hk⟩)
      have hb : (k == k1) = false := by simpa using hk
      simp only [List.lookup, hb]
      exact ih hnd.2 h

theorem Get_mem (hdr : MIMEHeader) (key : Str) :
    hdr.Get key = [] ∨ ∃ e ∈ hdr, hdr.Get key ∈ e.2 := by
  unfold MIMEHeader.Get
  cases h : List.lookup (CanonicalMIMEHeaderKey key) hdr with
  | none => simp
  | some vs =>
    cases vs with
    | nil => simp
    | cons v vs =>
      right
      exact ⟨_, mem_of_lookup h, by simp⟩

theorem Get_noLF (hdr : MIMEHeader) (hp : hdr.Parsed) (key : Str) : '\n' ∉ hdr.Get key := by
  rcases Get_mem hdr key with h | ⟨e, he, hv⟩
  · rw [h]; simp
  · exact (hp.2 e he).2.2.2 _ hv

/-- The first value of an entry of a parsed header map is what `Get` returns for its key. -/
theorem Get_of_mem (hdr : MIMEHeader) (hp : hdr.Parsed) (k : Str) (vs : List Str)
    (h : (k, vs) ∈ hdr) : hdr.Get k = vs.headD [] := by
  unfold MIMEHeader.Get
  rw [(hp.2 _ h).1, lookup_of_mem hp.1 h]
  cases vs <;> rfl

theorem takeWhile_colon (v : Str) :
    ∀ h : Str, ':' ∉ h → List.takeWhile (fun c => c != ':') (h ++ ':' :: ' ' :: v) = h := by
  intro h
  induction h with
  | nil => intro _; simp
  | cons c h ih =>
    intro hc
    have hc1 : c ≠ ':' := fun e => hc (by simp [e])
    have hc2 : ':' ∉ h := fun e => hc (List.mem_cons_of_mem _ e)
    simp [List.takeWhile_cons, hc1, ih hc2]

theorem dropWhile_colon (v : Str) :
    ∀ h : Str, ':' ∉ h →
      List.dropWhile (fun c => c != ':') (h ++ ':' :: ' ' :: v) = ':' :: ' ' :: v := by
  intro h
  induction h with
  | nil => intro _; simp
  | cons c h ih =>
    intro hc
    have hc1 : c ≠ ':' := fun e => hc (by simp [e])
    have hc2 : ':' ∉ h := fun e => hc (List.mem_cons_of_mem _ e)
    simp [List.dropWhile_cons, hc1, ih hc2]

theorem lineName_line (h v : Str) (hc : ':' ∉ h) : lineName (h ++ ": ".toList ++ v) = h := by
  show List.takeWhile (fun c => c != ':') (h ++ [':', ' '] ++ v) = h
  simpa using takeWhile_colon v h hc

theorem lineValue_line (h v : Str) (hc : ':' ∉ h) : lineValue (h ++ ": ".toList ++ v) = v := by
  show List.drop 2 (List.dropWhile (fun c => c != ':') (h ++ [':', ' '] ++ v)) = v
  have := dropWhile_colon v h hc
  simp only [List.append_assoc, List.cons_append, List.nil_append]
  rw [this]
  rfl

theorem keptLines_mem (hdr : MIMEHeader) (entries : List (Str × List Str)) (l : Str)
    (h : l ∈ keptLines hdr entries) :
    ∃ e ∈ entries, skipHeader e.1 = false ∧ l = e.1 ++ ": ".toList ++ hdr.Get e.1 := by
  simp only [keptLines, List.mem_map, List.mem_filter] at h
  obtain ⟨e, ⟨he, hs⟩, rfl⟩ := h
  exact ⟨e, he, by simpa using hs, rfl⟩

theorem keptLines_name (hdr : MIMEHeader) (hp : hdr.Parsed) (l : Str)
    (h : l ∈ keptLines hdr hdr) : skipHeader (lineName l) = false := by
  obtain ⟨e, he, hs, rfl⟩ := keptLines_mem hdr hdr l h
  rw [lineName_line _ _ (hp.2 e he).2.1]
  exact hs

theorem keptLines_origin (hdr : MIMEHeader) (hp : hdr.Parsed) (l : Str)
    (h : l ∈ keptLines hdr hdr) : ∃ e ∈ hdr, l = e.1 ++ ": ".toList ++ e.2.headD [] := by
  obtain ⟨e, he, _, rfl⟩ := keptLines_mem hdr hdr l h
  exact ⟨e, he, by rw [Get_of_mem hdr hp e.1 e.2 he]⟩

theorem keptLines_noLF (hdr : MIMEHeader) (hp : hdr.Parsed) (l : Str)
    (h : l ∈ keptLines hdr hdr) : l ≠ [] ∧ '\n' ∉ l := by
  obtain ⟨e, he, _, rfl⟩ := keptLines_mem hdr hdr l h
  constructor
  · simp [crlf_def]
  · have h1 := (hp.2 e he).2.2.1
    have h2 := Get_noLF hdr hp e.1
    simp only [List.mem_append, not_or]
    exact ⟨⟨h1, by decide⟩, h2⟩

theorem rt_noLF (parsedMail : Message) (hp : parsedMail.Header.Parsed) :
    '\n' ∉ forwardMail.rt parsedMail := by
  unfold forwardMail.rt
  simp only
  split
  · exact Get_noLF _ hp _
  · exact Get_noLF _ hp _

theorem composedLines_noLF (E : Env) (parsedMail : Message) (addrFrom addrTo : Address)
    (hp : parsedMail.Header.Parsed)
    (hstr : '\n' ∉ E.AddressString addrFrom ∧ '\n' ∉ E.AddressString addrTo) :
    ∀ l ∈ composedLines E parsedMail addrFrom addrTo, l ≠ [] ∧ '\n' ∉ l := by
  intro l hl
  simp only [composedLines, List.mem_append, List.mem_cons, List.mem_singleton,
    List.not_mem_nil, or_false] at hl
  rcases hl with hl | rfl | rfl | rfl
  · exact keptLines_noLF _ hp l hl
  · refine ⟨by simp, ?_⟩
    simp only [List.mem_append, not_or]
    exact ⟨by decide, hstr.1⟩
  · refine ⟨by simp, ?_⟩
    simp only [List.mem_append, not_or]
    exact ⟨by decide, hstr.2⟩
  · refine ⟨by simp, ?_⟩
    simp only [List.mem_append, not_or]
    exact ⟨by decide, rt_noLF parsedMail hp⟩

/-- The composed message reads back as the lines that were written and the body. -/
theorem readHeaderLines_newMail (E : Env) (parsedMail : Message) (addrFrom addrTo : Address)
    (hp : parsedMail.Header.Parsed)
    (hstr : '\n' ∉ E.AddressString addrFrom ∧ '\n' ∉ E.AddressString addrTo) :
    readHeaderLines (forwardMail.newMail E parsedMail addrFrom addrTo)
      = some (composedLines E parsedMail addrFrom addrTo, parsedMail.Body.data) := by
  rw [newMail_eq]
  exact readHeaderLines_writeLines _ _ (composedLines_noLF E parsedMail addrFrom addrTo hp hstr)

theorem lineName_From (x : Str) : lineName ("From: ".toList ++ x) = "From".toList :=
  lineName_line "From".toList x (by decide)

theorem lineName_To (x : Str) : lineName ("To: ".toList ++ x) = "To".toList :=
  lineName_line "To".toList x (by decide)

theorem lineName_ReplyTo (x : Str) : lineName ("Reply-To: ".toList ++ x) = "Reply-To".toList :=
  lineName_line "Reply-To".toList x (by decide)

theorem filter_eq_nil_of_forall {α : Type} (p : α → Bool) (l : List α)
    (h : ∀ x ∈ l, p x = false) : l.filter p = [] := by
  induction l with
  | nil => rfl
  | cons a l ih =>
    have ha := h a (by simp)
    simp only [List.filter, ha]
    exact ih (fun x hx => h x (List.mem_cons_of_mem _ hx))

/-! ## The claims -/

/-- **C1.** When `forwardMail` reaches the relay call on a parsed message, the header lines
of the message it hands over are the lines copied from the original (each the key and the
first value of an original entry), none of which has a name in the skip-set, followed by
the three recomputed lines `From`, `To` and `Reply-To`;
so the only lines with a name in the skip-set are these three, and there is no `Cc`, `Bcc`
or `Return-Path` line. -/
theorem skipped_headers_are_recomputed (E : Env) (original : SimpleEmailRecord)
    (past : List Event) (parsedMail : Message) (addrFrom addrTo : Address)
    (hrun : Composes E original past parsedMail addrFrom addrTo)
    (hp : parsedMail.Header.Parsed)
    (hstr : '\n' ∉ E.AddressString addrFrom ∧ '\n' ∉ E.AddressString addrTo) :
    ∃ kept rt,
      (forwardMail E original past).2 = past ++
        [Event.GetObject E.S3_BUCKET original.MessageID,
         Event.SendRawEmail (forwardMail.newMail E parsedMail addrFrom addrTo)]
      ∧ readHeaderLines (forwardMail.newMail E parsedMail addrFrom addrTo)
        = some (kept ++ ["From: ".toList ++ E.AddressString addrFrom,
            "To: ".toList ++ E.AddressString addrTo, "Reply-To: ".toList ++ rt],
          parsedMail.Body.data)
      ∧ (∀ line ∈ kept, skipHeader (lineName line) = false)
      ∧ (∀ line ∈ kept, ∃ e ∈ parsedMail.Header, line = e.1 ++ ": ".toList ++ e.2.headD [])
      ∧ (kept ++ ["From: ".toList ++ E.AddressString addrFrom,
            "To: ".toList ++ E.AddressString addrTo, "Reply-To: ".toList ++ rt]).filter
          (fun line => skipHeader (lineName line))
        = ["From: ".toList ++ E.AddressString addrFrom,
            "To: ".toList ++ E.AddressString addrTo, "Reply-To: ".toList ++ rt]
      ∧ ∀ line ∈ kept ++ ["From: ".toList ++ E.AddressString addrFrom,
            "To: ".toList ++ E.AddressString addrTo, "Reply-To: ".toList ++ rt],
          lineName line ≠ "Cc".toList ∧ lineName line ≠ "Bcc".toList
            ∧ lineName line ≠ "Return-Path".toList := by
  have hkept := keptLines_name parsedMail.Header hp
  refine ⟨keptLines parsedMail.Header parsedMail.Header, forwardMail.rt parsedMail, ?_,
    readHeaderLines_newMail E parsedMail addrFrom addrTo hp hstr, hkept,
    keptLines_origin parsedMail.Header hp, ?_, ?_⟩
  · rw [forwardMail_of_composes E original past parsedMail addrFrom addrTo hrun]
  · rw [List.filter_append, filter_eq_nil_of_forall _ _ hkept]
    simp only [List.filter, lineName_From, lineName_To, lineName_ReplyTo, List.nil_append]
    rfl
  · intro line hl
    rcases List.mem_append.mp hl with hl | hl
    · have := hkept line hl
      refine ⟨?_, ?_, ?_⟩ <;> intro e <;> rw [e] at this <;> exact absurd this (by decide)
    · simp only [List.mem_cons, List.mem_singleton, List.not_mem_nil, or_false] at hl
      rcases hl with rfl | rfl | rfl
      · rw [lineName_From]; decide
      · rw [lineName_To]; decide
      · rw [lineName_ReplyTo]; decide

/-- The test message is composed in the test world. -/
theorem testWorld_composes (body : Str) :
    Composes (testWorld body) testRecord [] (testMessage body)
      ⟨[], "ttt@example.com".toList⟩ ⟨[], "john@clearbyte.com".toList⟩ :=
  ⟨⟨⟨"raw".toList, none⟩, rfl, rfl⟩, rfl, rfl, rfl⟩

/-- Witness of C1: the test message with a two-line body. -/
theorem skipped_headers_are_recomputed_witness :
    ∃ kept rt,
      (forwardMail (testWorld "a\r\nb".toList) testRecord []).2 = [] ++
        [Event.GetObject (testWorld "a\r\nb".toList).S3_BUCKET testRecord.MessageID,
         Event.SendRawEmail (forwardMail.newMail (testWorld "a\r\nb".toList)
           (testMessage "a\r\nb".toList) ⟨[], "ttt@example.com".toList⟩
           ⟨[], "john@clearbyte.com".toList⟩)]
      ∧ readHeaderLines (forwardMail.newMail (testWorld "a\r\nb".toList)
           (testMessage "a\r\nb".toList) ⟨[], "ttt@example.com".toList⟩
           ⟨[], "john@clearbyte.com".toList⟩)
        = some (kept ++ ["From: <ttt@example.com>".toList, "To: <john@clearbyte.com>".toList,
            "Reply-To: ".toList ++ rt], "a\r\nb".toList)
      ∧ (∀ line ∈ kept, skipHeader (lineName line) = false) := by
  obtain ⟨kept, rt, h1, h2, h3, _⟩ :=
    skipped_headers_are_recomputed (testWorld "a\r\nb".toList) testRecord []
      (testMessage "a\r\nb".toList) ⟨[], "ttt@example.com".toList⟩
      ⟨[], "john@clearbyte.com".toList⟩ (testWorld_composes _) (by decide) (by decide)
  exact ⟨kept, rt, h1, h2, h3⟩

/-- The loop over a parsed header map writes one line for each key outside the skip-set,
with the first value stored under that key. -/
theorem keptLines_first_values (hdr : MIMEHeader) (hp : hdr.Parsed) :
    keptLines hdr hdr
      = (hdr.filter (fun e => !skipHeader e.1)).map
          (fun e => e.1 ++ ": ".toList ++ e.2.headD []) := by
  unfold keptLines
  apply List.map_congr_left
  intro e he
  rw [Get_of_mem hdr hp e.1 e.2 (List.mem_of_mem_filter he)]

/-- **C2** (fails on the code). A `Received` header with the two values `from a` and
`from b` yields one line, `Received: from a`: the loop writes `Header.Get(h)`, the first
value of the key, and the second value is nowhere in the message handed to the relay. -/
theorem second_value_is_dropped :
    forwardMail (mailWorld "john@clearbyte.com".toList twiceReceived (fun _ => .ok ()))
        testRecord []
      = (.ret none, [Event.GetObject "mail.clearbyte.io".toList testRecord.MessageID,
          Event.SendRawEmail ("Received: from a\r\nSubject: Test\r\n".toList ++
            "From: <ttt@example.com>\r\nTo: <john@clearbyte.com>\r\n".toList ++
            "Reply-To: bubba@example.com\r\n\r\nhi".toList)])
    ∧ readHeaderLines ("Received: from a\r\nSubject: Test\r\n".toList ++
            "From: <ttt@example.com>\r\nTo: <john@clearbyte.com>\r\n".toList ++
            "Reply-To: bubba@example.com\r\n\r\nhi".toList)
      = some (["Received: from a".toList, "Subject: Test".toList,
          "From: <ttt@example.com>".toList, "To: <john@clearbyte.com>".toList,
          "Reply-To: bubba@example.com".toList], "hi".toList)
    ∧ "Received: from b".toList ∉ ["Received: from a".toList, "Subject: Test".toList,
          "From: <ttt@example.com>".toList, "To: <john@clearbyte.com>".toList,
          "Reply-To: bubba@example.com".toList]
    ∧ ¬ ("from b".toList <:+: ("Received: from a\r\nSubject: Test\r\n".toList ++
            "From: <ttt@example.com>\r\nTo: <john@clearbyte.com>\r\n".toList ++
            "Reply-To: bubba@example.com\r\n\r\nhi".toList)) := by
  refine ⟨by decide, by decide, by decide, by decide⟩

/-- **C4.** When `forwardMail` reaches the relay call, the message it hands over has one
`Reply-To` line, and its value is the original `Reply-To` value when that is not empty
and the original `From` value otherwise, whatever that value is. -/
theorem reply_to_is_reply_to_or_from (E : Env) (original : SimpleEmailRecord)
    (past : List Event) (parsedMail : Message) (addrFrom addrTo : Address)
    (hrun : Composes E original past parsedMail addrFrom addrTo)
    (hp : parsedMail.Header.Parsed)
    (hstr : '\n' ∉ E.AddressString addrFrom ∧ '\n' ∉ E.AddressString addrTo) :
    ∃ lines,
      (forwardMail E original past).2 = past ++
        [Event.GetObject E.S3_BUCKET original.MessageID,
         Event.SendRawEmail (forwardMail.newMail E parsedMail addrFrom addrTo)]
      ∧ readHeaderLines (forwardMail.newMail E parsedMail addrFrom addrTo)
        = some (lines, parsedMail.Body.data)
      ∧ (lines.filter (fun line => lineName line == "Reply-To".toList)).map lineValue
        = [if parsedMail.Header.Get "Reply-To".toList ≠ []
            then parsedMail.Header.Get "Reply-To".toList
            else parsedMail.Header.Get "From".toList] := by
  refine ⟨composedLines E parsedMail addrFrom addrTo, ?_,
    readHeaderLines_newMail E parsedMail addrFrom addrTo hp hstr, ?_⟩
  · rw [forwardMail_of_composes E original past parsedMail addrFrom addrTo hrun]
  · have hkept : ∀ x ∈ keptLines parsedMail.Header parsedMail.Header,
        (lineName x == "Reply-To".toList) = false := by
      intro x hx
      have h := keptLines_name parsedMail.Header hp x hx
      by_contra hne
      have he : lineName x = "Reply-To".toList := by simpa using hne
      rw [he] at h
      exact absurd h (by decide)
    rw [composedLines, List.filter_append, filter_eq_nil_of_forall _ _ hkept]
    simp only [List.filter, lineName_From, lineName_To, lineName_ReplyTo, List.nil_append]
    have h1 : ("From".toList == "Reply-To".toList) = false := by decide
    have h2 : ("To".toList == "Reply-To".toList) = false := by decide
    have h3 : ("Reply-To".toList == "Reply-To".toList) = true := by decide
    simp only [h1, h2, h3, List.map_cons, List.map_nil]
    have hv : lineValue ("Reply-To: ".toList ++ forwardMail.rt parsedMail)
        = forwardMail.rt parsedMail :=
      lineValue_line "Reply-To".toList (forwardMail.rt parsedMail) (by decide)
    rw [hv]
    unfold forwardMail.rt
    by_cases hrt : parsedMail.Header.Get "Reply-To".toList = []
    · simp [hrt]
    · simp [hrt]

/-- Witness of C4: the test message has no `Reply-To`, so the line carries its `From`. -/
theorem reply_to_is_reply_to_or_from_witness :
    ∃ lines,
      readHeaderLines (forwardMail.newMail (testWorld "hi".toList) (testMessage "hi".toList)
          ⟨[], "ttt@example.com".toList⟩ ⟨[], "john@clearbyte.com".toList⟩)
        = some (lines, "hi".toList)
      ∧ (lines.filter (fun line => lineName line == "Reply-To".toList)).map lineValue
        = ["bubba@example.com".toList] := by
  obtain ⟨lines, _, h2, h3⟩ :=
    reply_to_is_reply_to_or_from (testWorld "hi".toList) testRecord []
      (testMessage "hi".toList) ⟨[], "ttt@example.com".toList⟩
      ⟨[], "john@clearbyte.com".toList⟩ (testWorld_composes _) (by decide) (by decide)
  exact ⟨lines, h2, h3⟩

/-- **C5.** When `forwardMail` reaches the relay call, the message it hands over is the
header lines, each with its CRLF, one empty CRLF line, and the bytes of the original body;
read back, the bytes after the first empty line are the original body, whatever bytes it
holds. -/
theorem body_is_copied_verbatim (E : Env) (original : SimpleEmailRecord)
    (past : List Event) (parsedMail : Message) (addrFrom addrTo : Address)
    (hrun : Composes E original past parsedMail addrFrom addrTo)
    (hp : parsedMail.Header.Parsed)
    (hstr : '\n' ∉ E.AddressString addrFrom ∧ '\n' ∉ E.AddressString addrTo) :
    ∃ lines,
      (forwardMail E original past).2 = past ++
        [Event.GetObject E.S3_BUCKET original.MessageID,
         Event.SendRawEmail (forwardMail.newMail E parsedMail addrFrom addrTo)]
      ∧ forwardMail.newMail E parsedMail addrFrom addrTo
        = writeLines lines ++ "\r\n".toList ++ parsedMail.Body.data
      ∧ readHeaderLines (forwardMail.newMail E parsedMail addrFrom addrTo)
        = some (lines, parsedMail.Body.data) := by
  refine ⟨composedLines E parsedMail addrFrom addrTo, ?_, newMail_eq E parsedMail addrFrom addrTo,
    readHeaderLines_newMail E parsedMail addrFrom addrTo hp hstr⟩
  rw [forwardMail_of_composes E original past parsedMail addrFrom addrTo hrun]

/-- Witness of C5: a body that starts with an empty line and holds a boundary line and
two bytes that are not text. -/
theorem body_is_copied_verbatim_witness :
    ∃ lines,
      readHeaderLines (forwardMail.newMail (testWorld "\r\n--b\r\n\r\n\x00\xff".toList)
          (testMessage "\r\n--b\r\n\r\n\x00\xff".toList)
          ⟨[], "ttt@example.com".toList⟩ ⟨[], "john@clearbyte.com".toList⟩)
        = some (lines, "\r\n--b\r\n\r\n\x00\xff".toList) := by
  obtain ⟨lines, _, _, h3⟩ :=
    body_is_copied_verbatim (testWorld "\r\n--b\r\n\r\n\x00\xff".toList) testRecord []
      (testMessage "\r\n--b\r\n\r\n\x00\xff".toList) ⟨[], "ttt@example.com".toList⟩
      ⟨[], "john@clearbyte.com".toList⟩ (testWorld_composes _) (by decide) (by decide)
  exact ⟨lines, h3⟩

/-- **C6.** If `FORWARD_TO` does not parse, or the object is fetched and parsed and the
string taken from the original `To` header (after the substitution, if any) does not
parse, then `forwardMail` does not return: it panics, and the only client call it has
made is the fetch; the relay is not called. -/
theorem bad_address_sends_nothing (E : Env) (original : SimpleEmailRecord)
    (past : List Event)
    (h : (∃ err, E.ParseAddress E.FORWARD_TO = .error err) ∨
      (∃ s3Mail parsedMail err,
        E.GetObject past E.S3_BUCKET original.MessageID = .ok s3Mail
        ∧ E.ReadMessage s3Mail = .ok parsedMail
        ∧ E.ParseAddress (forwardMail.from E parsedMail) = .error err)) :
    (∃ v, (forwardMail E original past).1 = .panic v)
      ∧ (forwardMail E original past).2
        = past ++ [Event.GetObject E.S3_BUCKET original.MessageID] := by
  rcases h with ⟨err, hto⟩ | ⟨s3Mail, parsedMail, err, hget, hread, hfrom⟩
  · simp only [forwardMail, getFromS3]
    cases hget : E.GetObject past E.S3_BUCKET original.MessageID with
    | error e => exact ⟨⟨_, rfl⟩, rfl⟩
    | ok s3Mail =>
      simp only
      cases hread : E.ReadMessage s3Mail with
      | error e => exact ⟨⟨_, rfl⟩, rfl⟩
      | ok parsedMail =>
        simp only [hto]
        exact ⟨⟨_, rfl⟩, trivial⟩
  · simp only [forwardMail, getFromS3, hget, hread]
    cases hto : E.ParseAddress E.FORWARD_TO with
    | error e => exact ⟨⟨_, rfl⟩, rfl⟩
    | ok addrTo =>
      simp only [hfrom]
      exact ⟨⟨_, rfl⟩, trivial⟩

/-- Witness of C6: `FORWARD_TO=nobody`, which is not an address. -/
theorem bad_address_sends_nothing_witness :
    (∃ v, (forwardMail (mailWorld "nobody".toList (testMessage "hi".toList) (fun _ => .ok ()))
        testRecord []).1 = .panic v)
      ∧ (forwardMail (mailWorld "nobody".toList (testMessage "hi".toList) (fun _ => .ok ()))
        testRecord []).2
        = [] ++ [Event.GetObject "mail.clearbyte.io".toList testRecord.MessageID] :=
  bad_address_sends_nothing
    (mailWorld "nobody".toList (testMessage "hi".toList) (fun _ => .ok ())) testRecord []
    (Or.inl ⟨_, rfl⟩)

/-- With no occurrence of `%s`, or with two or more, the string parsed as the new From
address is the original `To` value, unchanged. -/
theorem from_unchanged_unless_one (E : Env) (parsedMail : Message)
    (h : Count (parsedMail.Header.Get "To".toList) "%s".toList ≠ 1) :
    forwardMail.from E parsedMail = parsedMail.Header.Get "To".toList := by
  unfold forwardMail.from
  simp only
  rw [if_neg h]

theorem doPrintf_text (arg : Str) (c : Char) (rest : Str) (argNum : Nat) (hc : c ≠ '%') :
    fmtSprintf.doPrintf arg (c :: rest) argNum
      = (fmtSprintf.doPrintf arg rest argNum).map (fun out => c :: out) := by
  cases rest <;> simp only [fmtSprintf.doPrintf, if_pos hc]

theorem doPrintf_percent_s (arg rest : Str) :
    fmtSprintf.doPrintf arg ('%' :: 's' :: rest) 0
      = (fmtSprintf.doPrintf arg rest 1).map (fun out => arg ++ out) := rfl

theorem doPrintf_plain (arg : Str) :
    ∀ t : Str, '%' ∉ t → fmtSprintf.doPrintf arg t 1 = some t := by
  intro t
  induction t with
  | nil => intro _; rfl
  | cons c t ih =>
    intro h
    have hc : c ≠ '%' := fun e => h (by simp [e])
    have ht : '%' ∉ t := fun e => h (List.mem_cons_of_mem _ e)
    rw [doPrintf_text arg c t 1 hc, ih ht]
    rfl

theorem Count_loop_zero (substr : Str) (c : Char) (s : Str) :
    Count.loop substr 0 (c :: s)
      = if HasPrefix (c :: s) substr then Count.loop substr (substr.length - 1) s + 1
        else Count.loop substr 0 s := rfl

theorem Count_loop_plain (d : Char) (sub : Str) :
    ∀ (t : Str) (skip : Nat), d ∉ t → Count.loop (d :: sub) skip t = 0 := by
  intro t
  induction t with
  | nil => intro skip _; cases skip <;> rfl
  | cons c t ih =>
    intro skip h
    have hc : c ≠ d := fun e => h (by simp [e])
    have ht : d ∉ t := fun e => h (List.mem_cons_of_mem _ e)
    cases skip with
    | zero =>
      have hp : HasPrefix (c :: t) (d :: sub) = false := by
        simp [HasPrefix, hc]
      rw [Count_loop_zero, hp]
      exact ih 0 ht
    | succ skip => exact ih skip ht

theorem HasPrefix_percent (c : Char) (t : Str) (hc : c ≠ '%') :
    HasPrefix (c :: t) "%s".toList = false := by
  show (c == '%' && HasPrefix t ['s']) = false
  simp [hc]

theorem substituteName_cons (c : Char) (t n : Str) :
    substituteName (c :: t) n
      = if HasPrefix (c :: t) "%s".toList then n ++ t.tail else c :: substituteName t n := rfl

/-- With `%s` once and no other percent sign in the format, the model of `fmt.Sprintf`
replaces that occurrence by the operand and leaves the rest unchanged. -/
theorem fmtSprintf_single_percent (arg : Str) :
    ∀ t : Str, t.count '%' = 1 → Count t "%s".toList = 1 →
      fmtSprintf t arg = some (substituteName t arg) := by
  intro t
  induction t with
  | nil => intro h; simp at h
  | cons c t ih =>
    intro h1 h2
    by_cases hc : c = '%'
    · subst hc
      have ht : '%' ∉ t := by
        intro hm
        have := List.count_pos_iff.mpr hm
        simp at h1
        omega
      cases t with
      | nil => exact absurd h2 (by decide)
      | cons d t =>
        by_cases hd : d = 's'
        · subst hd
          have ht2 : '%' ∉ t := fun e => ht (List.mem_cons_of_mem _ e)
          have hp : HasPrefix ('%' :: 's' :: t) "%s".toList = true := by
            cases t <;> rfl
          unfold fmtSprintf
          rw [doPrintf_percent_s, doPrintf_plain arg t ht2, substituteName_cons, hp]
          rfl
        · exfalso
          have hp : HasPrefix ('%' :: d :: t) "%s".toList = false := by
            show (('%' : Char) == '%' && (d == 's' && HasPrefix t [])) = false
            simp [hd]
          have h0 := Count_loop_plain '%' "s".toList (d :: t) 0 ht
          unfold Count at h2
          rw [Count_loop_zero, hp] at h2
          have h3 : Count.loop "%s".toList 0 (d :: t) = 1 := h2
          rw [show "%s".toList = '%' :: "s".toList from rfl, h0] at h3
          exact absurd h3 (by decide)
    · have hcount : t.count '%' = 1 := by
        rw [List.count_cons] at h1
        have : (c == '%') = false := by simpa using hc
        simpa [this] using h1
      have hp := HasPrefix_percent c t hc
      have h2t : Count t "%s".toList = 1 := by
        unfold Count at h2
        rw [Count_loop_zero, hp] at h2
        exact h2
      have := ih hcount h2t
      unfold fmtSprintf at this ⊢
      rw [doPrintf_text arg c t 0 hc, this, substituteName_cons, hp]
      rfl

/-- With `%s` once and no other percent sign in the original `To` value, and
`fmt.Sprintf` as modelled, the string parsed as the new From address is the `To` value
with its `%s` replaced by the display name of the original sender. -/
theorem from_substitutes_single_percent (E : Env) (parsedMail : Message) (a : Address)
    (hfmt : ∀ format arg r, fmtSprintf format arg = some r → E.Sprintf format arg = r)
    (hparse : E.ParseAddress (parsedMail.Header.Get "From".toList) = .ok a)
    (h1 : Count (parsedMail.Header.Get "To".toList) "%s".toList = 1)
    (h2 : (parsedMail.Header.Get "To".toList).count '%' = 1) :
    forwardMail.from E parsedMail
      = substituteName (parsedMail.Header.Get "To".toList) a.Name := by
  unfold forwardMail.from
  simp only [hparse]
  rw [if_pos h1]
  exact hfmt _ _ _ (fmtSprintf_single_percent a.Name _ h2 h1)

/-- **C3** (fails on the code). The `To` value `20%off %s <relay@example.com>` holds `%s`
once, so the code formats it with `fmt.Sprintf`: the `%o` is read as a verb and takes the
name, and the `%s` finds no operand left. The `To` value `100%% %s <relay@example.com>`
loses one of its two percent signs. In both the result is not the `To` value with its
`%s` replaced by the name Alice. -/
theorem other_percent_signs_are_formatted :
    Count "20%off %s <relay@example.com>".toList "%s".toList = 1
    ∧ forwardMail.from (testWorld [])
        (percentMessage "20%off %s <relay@example.com>".toList)
      = "20%!o(string=Alice)ff %!s(MISSING) <relay@example.com>".toList
    ∧ substituteName "20%off %s <relay@example.com>".toList "Alice".toList
      = "20%off Alice <relay@example.com>".toList
    ∧ Count "100%% %s <relay@example.com>".toList "%s".toList = 1
    ∧ forwardMail.from (testWorld [])
        (percentMessage "100%% %s <relay@example.com>".toList)
      = "100% Alice <relay@example.com>".toList
    ∧ substituteName "100%% %s <relay@example.com>".toList "Alice".toList
      = "100%% Alice <relay@example.com>".toList
    ∧ forwardMail.from (testWorld [])
        (percentMessage "20%off %s <relay@example.com>".toList)
      ≠ substituteName "20%off %s <relay@example.com>".toList "Alice".toList
    ∧ forwardMail.from (testWorld [])
        (percentMessage "100%% %s <relay@example.com>".toList)
      ≠ substituteName "100%% %s <relay@example.com>".toList "Alice".toList := by
  refine ⟨by decide, by decide, by decide, by decide, by decide, by decide, by decide,
    by decide⟩

/-- A call of `forwardMail` returns nil or panics: it never returns an error. -/
theorem forwardMail_nil_or_panic (E : Env) (original : SimpleEmailRecord)
    (past : List Event) :
    (forwardMail E original past).1 = .ret none
      ∨ ∃ v, (forwardMail E original past).1 = .panic v := by
  simp only [forwardMail, getFromS3]
  cases E.GetObject past E.S3_BUCKET original.MessageID with
  | error e => exact Or.inr ⟨_, rfl⟩
  | ok s3Mail =>
    simp only
    cases E.ReadMessage s3Mail with
    | error e => exact Or.inr ⟨_, rfl⟩
    | ok parsedMail =>
      simp only
      cases E.ParseAddress E.FORWARD_TO with
      | error e => exact Or.inr ⟨_, rfl⟩
      | ok addrTo =>
        simp only
        cases E.ParseAddress (forwardMail.from E parsedMail) with
        | error e => exact Or.inr ⟨_, rfl⟩
        | ok addrFrom =>
          simp only
          cases parsedMail.Body.err with
          | some e => exact Or.inr ⟨_, rfl⟩
          | none =>
            simp only
            cases E.SendRawEmail (past ++ [Event.GetObject E.S3_BUCKET original.MessageID])
              (forwardMail.newMail E parsedMail addrFrom addrTo) with
            | error e => exact Or.inr ⟨_, rfl⟩
            | ok _ => exact Or.inl rfl

theorem Handler_loop_nil_or_panic (E : Env) :
    ∀ (records : List SimpleEmailRecord) (past : List Event),
      (Handler.loop E records past).1 = .ret none
        ∨ ∃ v, (Handler.loop E records past).1 = .panic v := by
  intro records
  induction records with
  | nil => intro past; exact Or.inl rfl
  | cons r rest ih =>
    intro past
    rcases h : forwardMail E r past with ⟨res, now⟩
    have hf := forwardMail_nil_or_panic E r past
    rw [h] at hf
    rcases hf with hf | ⟨v, hf⟩
    · simp only at hf
      subst hf
      simp only [Handler.loop, h]
      exact ih now
    · simp only at hf
      subst hf
      simp only [Handler.loop, h]
      exact Or.inr ⟨v, rfl⟩

/-- The loop of `Handler` goes through the records in order and ends at the first one on
which `forwardMail` panics: the records before it were processed, those after it are not
touched. -/
theorem Handler_loop_stops_at_panic (E : Env) (r : SimpleEmailRecord)
    (later : List SimpleEmailRecord) (v : Str) :
    ∀ (earlier : List SimpleEmailRecord) (past now after : List Event),
      Handler.loop E earlier past = (.ret none, now) →
      forwardMail E r now = (.panic v, after) →
      Handler.loop E (earlier ++ r :: later) past = (.panic v, after) := by
  intro earlier
  induction earlier with
  | nil =>
    intro past now after h1 h2
    simp only [Handler.loop, Prod.mk.injEq, true_and] at h1
    subst h1
    simp only [List.nil_append, Handler.loop, h2]
  | cons e rest ih =>
    intro past now after h1 h2
    rcases hf : forwardMail E e past with ⟨res, mid⟩
    rcases forwardMail_nil_or_panic E e past with h | ⟨w, h⟩
    · rw [hf] at h
      simp only at h
      subst h
      simp only [Handler.loop, hf] at h1
      simp only [List.cons_append, Handler.loop, hf]
      exact ih mid now after h1 h2
    · rw [hf] at h
      simp only at h
      subst h
      simp only [Handler.loop, hf, Prod.mk.injEq] at h1
      exact absurd h1.1 (by simp)

/-- **C7** (fails on the code). `Handler` never returns an error; and on a batch of two
records of which the first cannot be fetched it panics with the payload of `log.Panicln`
in `getFromS3`, after the one fetch: the second record is not fetched, and no error is
returned. -/
theorem Handler_panics_at_first_failure :
    (∀ (E : Env) (event : SimpleEmailEvent) (past : List Event) (err : Str),
      (Handler E event past).1 ≠ .ret (some err))
    ∧ Handler (world "john@clearbyte.com".toList [] [] addressBook (fun _ => .ok ()))
        ⟨[testRecord, secondRecord]⟩ []
      = (.panic "Error getting mail from S3:  NoSuchKey\n".toList,
          [Event.GetObject "mail.clearbyte.io".toList testRecord.MessageID]) := by
  refine ⟨?_, by decide⟩
  intro E event past err h
  rcases Handler_loop_nil_or_panic E event.Records past with h1 | ⟨v, h1⟩
  · rw [Handler, h1] at h
    exact absurd h (by simp)
  · rw [Handler, h1] at h
    exact absurd h (by simp)

/-- **C9** (fails on the code). `forwardMail` never returns an error: a failure of any of
the five stages ends it by the panic of `log.Panicln`, which stands before the error
return. The five runs: the object is missing, the object does not parse, `FORWARD_TO` is
not an address, the body reader fails, the relay rejects the message. -/
theorem forwardMail_failure_is_a_panic :
    (∀ (E : Env) (original : SimpleEmailRecord) (past : List Event) (err : Str),
      (forwardMail E original past).1 ≠ .ret (some err))
    ∧ (forwardMail (world "john@clearbyte.com".toList [] [] addressBook (fun _ => .ok ()))
        testRecord []).1
      = .panic "Error getting mail from S3:  NoSuchKey\n".toList
    ∧ (forwardMail (world "john@clearbyte.com".toList
          [(testRecord.MessageID, ⟨"raw".toList, none⟩)] [] addressBook (fun _ => .ok ()))
        testRecord []).1
      = .panic "Error reading message from S3:  malformed MIME header line\n".toList
    ∧ (forwardMail (mailWorld "nobody".toList (testMessage "hi".toList) (fun _ => .ok ()))
        testRecord []).1
      = .panic "Error parsing FORWARD_TO address:  mail: missing '@' or angle-addr\n".toList
    ∧ (forwardMail (mailWorld "john@clearbyte.com".toList
          ⟨(testMessage []).Header, ⟨"h".toList, some "unexpected EOF".toList⟩⟩
          (fun _ => .ok ())) testRecord []).1
      = .panic "Error reading mail body:  unexpected EOF\n".toList
    ∧ (forwardMail (mailWorld "john@clearbyte.com".toList (testMessage "hi".toList)
          (fun _ => .error "MessageRejected".toList)) testRecord []).1
      = .panic "Error sending mail:  MessageRejected\n".toList := by
  refine ⟨?_, by decide, by decide, by decide, by decide, by decide⟩
  intro E original past err h
  rcases forwardMail_nil_or_panic E original past with h1 | ⟨v, h1⟩
  · rw [h1] at h
    exact absurd h (by simp)
  · rw [h1] at h
    exact absurd h (by simp)

theorem lookup_perm (k : Str) (l₁ l₂ : List (Str × List Str)) (hperm : l₁.Perm l₂)
    (hnd : (l₂.map Prod.fst).Nodup) : List.lookup k l₁ = List.lookup k l₂ := by
  have hnd1 : (l₁.map Prod.fst).Nodup := (hperm.map Prod.fst).nodup_iff.mpr hnd
  cases h2 : List.lookup k l₂ with
  | some v => exact lookup_of_mem hnd1 (hperm.mem_iff.mpr (mem_of_lookup h2))
  | none =>
    cases h1 : List.lookup k l₁ with
    | none => rfl
    | some v =>
      have := lookup_of_mem hnd (hperm.mem_iff.mp (mem_of_lookup h1))
      rw [h2] at this
      exact absurd this (by simp)

theorem Get_perm (hdr other : MIMEHeader) (hperm : hdr.Perm other)
    (hnd : (other.map Prod.fst).Nodup) (key : Str) : hdr.Get key = other.Get key := by
  unfold MIMEHeader.Get
  rw [lookup_perm _ hdr other hperm hnd]

theorem keptLines_test (hdr : MIMEHeader) (hperm : hdr.Perm testHeader) :
    keptLines hdr hdr = ["Subject: Test".toList] := by
  have hf : (hdr.filter (fun e => !skipHeader e.1)).Perm
      [("Subject".toList, ["Test".toList])] := hperm.filter _
  have hg := Get_perm hdr testHeader hperm (by decide) "Subject".toList
  rw [keptLines, List.perm_singleton.mp hf, List.map_cons, List.map_nil, hg]
  rfl

/-- **C8** (as amended). For a message with the headers `From: bubba@example.com`,
`To: ttt@example.com` and `Subject: Test`, in any order, and `FORWARD_TO=john@clearbyte.com`,
where the two addresses parse as Go parses them, `String` formats as Go formats, and the
relay accepts: `forwardMail` returns nil after handing the relay exactly the lines
`Subject: Test`, `From: <ttt@example.com>`, `To: <john@clearbyte.com>`,
`Reply-To: bubba@example.com`, the empty line and the original body. -/
theorem test_scenario_is_forwarded (E : Env) (original : SimpleEmailRecord)
    (past : List Event) (s3Mail : Reader) (parsedMail : Message) (body : Str)
    (hget : E.GetObject past E.S3_BUCKET original.MessageID = .ok s3Mail)
    (hread : E.ReadMessage s3Mail = .ok parsedMail)
    (hhdr : parsedMail.Header.Perm testHeader)
    (hbody : parsedMail.Body = ⟨body, none⟩)
    (hfwd : E.FORWARD_TO = "john@clearbyte.com".toList)
    (hjohn : E.ParseAddress "john@clearbyte.com".toList
      = .ok ⟨[], "john@clearbyte.com".toList⟩)
    (httt : E.ParseAddress "ttt@example.com".toList = .ok ⟨[], "ttt@example.com".toList⟩)
    (hstr : ∀ a r, mailAddressString a = some r → E.AddressString a = r)
    (hsend : E.SendRawEmail (past ++ [Event.GetObject E.S3_BUCKET original.MessageID])
      (testForwarded body) = .ok ()) :
    forwardMail E original past
      = (.ret none, past ++ [Event.GetObject E.S3_BUCKET original.MessageID,
          Event.SendRawEmail (testForwarded body)])
    ∧ readHeaderLines (testForwarded body)
      = some (["Subject: Test".toList, "From: <ttt@example.com>".toList,
          "To: <john@clearbyte.com>".toList, "Reply-To: bubba@example.com".toList], body) := by
  have hgetTo : parsedMail.Header.Get "To".toList = "ttt@example.com".toList := by
    rw [Get_perm _ testHeader hhdr (by decide)]; decide
  have hgetFrom : parsedMail.Header.Get "From".toList = "bubba@example.com".toList := by
    rw [Get_perm _ testHeader hhdr (by decide)]; decide
  have hgetRT : parsedMail.Header.Get "Reply-To".toList = [] := by
    rw [Get_perm _ testHeader hhdr (by decide)]; decide
  have hfromStr : forwardMail.from E parsedMail = "ttt@example.com".toList := by
    rw [from_unchanged_unless_one E parsedMail (by rw [hgetTo]; decide), hgetTo]
  have hrt : forwardMail.rt parsedMail = "bubba@example.com".toList := by
    unfold forwardMail.rt
    simp only [hgetRT, hgetFrom, if_true]
  have hs1 : E.AddressString ⟨[], "ttt@example.com".toList⟩ = "<ttt@example.com>".toList :=
    hstr _ _ (by decide)
  have hs2 : E.AddressString ⟨[], "john@clearbyte.com".toList⟩
      = "<john@clearbyte.com>".toList := hstr _ _ (by decide)
  have hnew : forwardMail.newMail E parsedMail ⟨[], "ttt@example.com".toList⟩
      ⟨[], "john@clearbyte.com".toList⟩ = testForwarded body := by
    rw [newMail_eq, composedLines, keptLines_test _ hhdr, hs1, hs2, hrt, hbody]
    rfl
  have hrun : Composes E original past parsedMail ⟨[], "ttt@example.com".toList⟩
      ⟨[], "john@clearbyte.com".toList⟩ :=
    ⟨⟨s3Mail, hget, hread⟩, by rw [hfwd, hjohn], by rw [hfromStr, httt], by rw [hbody]⟩
  constructor
  · rw [forwardMail_of_composes E original past parsedMail _ _ hrun, hnew, hsend]
  · have h := readHeaderLines_writeLines ["Subject: Test".toList,
      "From: <ttt@example.com>".toList, "To: <john@clearbyte.com>".toList,
      "Reply-To: bubba@example.com".toList] body (by decide)
    exact h

/-- Witness of C8 as amended: the world of `TestHandler` with a two-line body. -/
theorem test_scenario_is_forwarded_witness :
    forwardMail (testWorld "line 1\r\nline 2\r\n".toList) testRecord []
      = (.ret none, [] ++ [Event.GetObject "mail.clearbyte.io".toList testRecord.MessageID,
          Event.SendRawEmail (testForwarded "line 1\r\nline 2\r\n".toList)])
    ∧ readHeaderLines (testForwarded "line 1\r\nline 2\r\n".toList)
      = some (["Subject: Test".toList, "From: <ttt@example.com>".toList,
          "To: <john@clearbyte.com>".toList, "Reply-To: bubba@example.com".toList],
          "line 1\r\nline 2\r\n".toList) :=
  test_scenario_is_forwarded (testWorld "line 1\r\nline 2\r\n".toList) testRecord []
    ⟨"raw".toList, none⟩ (testMessage "line 1\r\nline 2\r\n".toList) "line 1\r\nline 2\r\n".toList
    rfl rfl (List.Perm.refl _) rfl rfl rfl rfl
    (fun a r h => by
      show (mailAddressString a).getD [] = r
      rw [h]; rfl)
    rfl

/-- **C8** (as stated, refuted). In the world of `TestHandler` the call returns nil and
the relay receives the composed message, but its header lines do not include
`To: john@clearbyte.com` nor `From: ttt@example.com`, and these bytes occur nowhere in
it: `String` writes each address between angle brackets. -/
theorem test_scenario_has_angle_brackets :
    ¬ (∃ msg lines,
      forwardMail (testWorld "hi".toList) testRecord []
        = (.ret none, [Event.GetObject "mail.clearbyte.io".toList testRecord.MessageID,
            Event.SendRawEmail msg])
      ∧ readHeaderLines msg = some (lines, "hi".toList)
      ∧ "To: john@clearbyte.com".toList ∈ lines ∧ "From: ttt@example.com".toList ∈ lines
      ∧ "Reply-To: bubba@example.com".toList ∈ lines ∧ "Subject: Test".toList ∈ lines)
    ∧ ¬ ("To: john@clearbyte.com".toList <:+: testForwarded "hi".toList)
    ∧ ¬ ("From: ttt@example.com".toList <:+: testForwarded "hi".toList) := by
  refine ⟨?_, by decide, by decide⟩
  rintro ⟨msg, lines, h1, h2, h3, _⟩
  have hrun : forwardMail (testWorld "hi".toList) testRecord []
      = (.ret none, [Event.GetObject "mail.clearbyte.io".toList testRecord.MessageID,
          Event.SendRawEmail (testForwarded "hi".toList)]) := by decide
  rw [hrun] at h1
  have hmsg : msg = testForwarded "hi".toList := by
    have h4 := congrArg Prod.snd h1
    injection h4 with _ h5
    injection h5 with h6 _
    injection h6 with h7
    exact h7.symm
  subst hmsg
  have hlines : readHeaderLines (testForwarded "hi".toList)
      = some (["Subject: Test".toList, "From: <ttt@example.com>".toList,
          "To: <john@clearbyte.com>".toList, "Reply-To: bubba@example.com".toList],
          "hi".toList) := by decide
  rw [hlines] at h2
  injection h2 with h2
  injection h2 with h2 _
  subst h2
  exact absurd h3 (by decide)

theorem lookup_filter_ne (k f : Str) (hk : k ≠ f) :
    ∀ l : List (Str × List Str),
      List.lookup k (l.filter (fun e => e.1 != f)) = List.lookup k l := by
  intro l
  induction l with
  | nil => rfl
  | cons e rest ih =>
    obtain ⟨k1, v1⟩ := e
    by_cases h1 : k1 = f
    · subst h1
      have hb : (k == k1) = false := by simpa using hk
      simp only [List.filter, bne_self_eq_false, List.lookup, hb]
      exact ih
    · have hb : (k1 != f) = true := by simpa using h1
      simp only [List.filter, hb, List.lookup]
      rw [ih]

theorem Get_filter_ne (hdr : MIMEHeader) (key f : Str)
    (hk : CanonicalMIMEHeaderKey key ≠ f) :
    MIMEHeader.Get (hdr.filter (fun e => e.1 != f)) key = hdr.Get key := by
  unfold MIMEHeader.Get
  rw [lookup_filter_ne _ f hk]

theorem keptLines_filter_From (hdr : MIMEHeader)
    (hc : ∀ e ∈ hdr, skipHeader e.1 = false → CanonicalMIMEHeaderKey e.1 = e.1) :
    keptLines hdr hdr
      = keptLines (hdr.filter (fun e => e.1 != "From".toList))
          (hdr.filter (fun e => e.1 != "From".toList)) := by
  have hf : (hdr.filter (fun e => e.1 != "From".toList)).filter (fun e => !skipHeader e.1)
      = hdr.filter (fun e => !skipHeader e.1) := by
    rw [List.filter_filter]
    apply List.filter_congr
    intro e _
    by_cases hs : skipHeader e.1 = true
    · simp [hs]
    · have hs2 : skipHeader e.1 = false := by simpa using hs
      have hne : e.1 ≠ "From".toList := by
        intro he
        rw [he] at hs2
        exact absurd hs2 (by decide)
      have hb : (e.1 != "From".toList) = true := by simpa using hne
      rw [hs2, hb]
      rfl
  unfold keptLines
  rw [hf]
  apply List.map_congr_left
  intro e he
  have hs : skipHeader e.1 = false := by
    have := (List.mem_filter.mp he).2
    simpa using this
  have hmem : e ∈ hdr := List.mem_of_mem_filter he
  have hne : CanonicalMIMEHeaderKey e.1 ≠ "From".toList := by
    rw [hc e hmem hs]
    intro h
    rw [h] at hs
    exact absurd hs (by decide)
  rw [Get_filter_ne hdr e.1 "From".toList hne]

theorem newMail_reply_to (E : Env) (parsedMail : Message) (addrFrom addrTo : Address) :
    forwardMail.newMail E parsedMail addrFrom addrTo
      = writeLines (keptLines parsedMail.Header parsedMail.Header ++
          ["From: ".toList ++ E.AddressString addrFrom,
           "To: ".toList ++ E.AddressString addrTo])
        ++ "Reply-To: ".toList ++ forwardMail.rt parsedMail ++ "\r\n\r\n".toList
        ++ parsedMail.Body.data := by
  have h : ∀ x : Str, "\r\n".toList ++ ("\r\n".toList ++ x) = "\r\n\r\n".toList ++ x :=
    fun _ => rfl
  rw [newMail_eq]
  simp only [composedLines, writeLines, List.flatMap_append, List.flatMap_cons,
    List.flatMap_nil, List.append_assoc, List.nil_append, List.append_nil, h]

/-- **C10** (as amended). A `From` header that does not parse (a missing one included,
when the empty string does not parse) does not end `forwardMail`. The display name put in
place of `%s` is the empty string. Up to the relay call the run goes as the run on a
stored message that differs only in its `From` header, whose `From` parses with an empty
display name: the string parsed as the new From address is the same, and when
`FORWARD_TO` or that string does not parse or the body reader fails, both runs end in
the same panic after their fetch. When these stages succeed, each run hands its composed
message to the relay and returns nil exactly when the relay accepts that message; the two
messages are the same bytes up to the value of the `Reply-To` line, which is the original
`Reply-To` value when that is not empty and the `From` value of the message otherwise. -/
theorem unparsable_From_is_not_fatal (E : Env) (original other : SimpleEmailRecord)
    (past : List Event) (s3Mail s3Other : Reader) (parsedMail parsedOther : Message)
    (err : Str) (a : Address)
    (hget : E.GetObject past E.S3_BUCKET original.MessageID = .ok s3Mail)
    (hread : E.ReadMessage s3Mail = .ok parsedMail)
    (hgetO : E.GetObject past E.S3_BUCKET other.MessageID = .ok s3Other)
    (hreadO : E.ReadMessage s3Other = .ok parsedOther)
    (hbad : E.ParseAddress (parsedMail.Header.Get "From".toList) = .error err)
    (hgood : E.ParseAddress (parsedOther.Header.Get "From".toList) = .ok a)
    (hname : a.Name = [])
    (hsame : parsedOther.Header.filter (fun e => e.1 != "From".toList)
      = parsedMail.Header.filter (fun e => e.1 != "From".toList))
    (hbody : parsedOther.Body = parsedMail.Body)
    (hp : parsedMail.Header.Parsed) :
    forwardMail.from E parsedMail
      = (if Count (parsedMail.Header.Get "To".toList) "%s".toList = 1
          then E.Sprintf (parsedMail.Header.Get "To".toList) []
          else parsedMail.Header.Get "To".toList)
    ∧ forwardMail.from E parsedOther = forwardMail.from E parsedMail
    ∧ (((∃ e, E.ParseAddress E.FORWARD_TO = .error e)
          ∨ (∃ e, E.ParseAddress (forwardMail.from E parsedMail) = .error e)
          ∨ (∃ e, parsedMail.Body.err = some e)) →
        ∃ v,
          forwardMail E original past
            = (.panic v, past ++ [Event.GetObject E.S3_BUCKET original.MessageID])
          ∧ forwardMail E other past
            = (.panic v, past ++ [Event.GetObject E.S3_BUCKET other.MessageID]))
    ∧ (∀ addrTo addrFrom, E.ParseAddress E.FORWARD_TO = .ok addrTo →
        E.ParseAddress (forwardMail.from E parsedMail) = .ok addrFrom →
        parsedMail.Body.err = none →
        (forwardMail E original past).2
          = past ++ [Event.GetObject E.S3_BUCKET original.MessageID,
              Event.SendRawEmail (forwardMail.newMail E parsedMail addrFrom addrTo)]
        ∧ ((forwardMail E original past).1 = .ret none
            ↔ E.SendRawEmail (past ++ [Event.GetObject E.S3_BUCKET original.MessageID])
                (forwardMail.newMail E parsedMail addrFrom addrTo) = .ok ())
        ∧ (forwardMail E other past).2
          = past ++ [Event.GetObject E.S3_BUCKET other.MessageID,
              Event.SendRawEmail (forwardMail.newMail E parsedOther addrFrom addrTo)]
        ∧ ((forwardMail E other past).1 = .ret none
            ↔ E.SendRawEmail (past ++ [Event.GetObject E.S3_BUCKET other.MessageID])
                (forwardMail.newMail E parsedOther addrFrom addrTo) = .ok ())
        ∧ ∃ head,
            forwardMail.newMail E parsedMail addrFrom addrTo
              = head ++ "Reply-To: ".toList
                ++ (if parsedMail.Header.Get "Reply-To".toList ≠ []
                    then parsedMail.Header.Get "Reply-To".toList
                    else parsedMail.Header.Get "From".toList)
                ++ "\r\n\r\n".toList ++ parsedMail.Body.data
            ∧ forwardMail.newMail E parsedOther addrFrom addrTo
              = head ++ "Reply-To: ".toList
                ++ (if parsedMail.Header.Get "Reply-To".toList ≠ []
                    then parsedMail.Header.Get "Reply-To".toList
                    else parsedOther.Header.Get "From".toList)
                ++ "\r\n\r\n".toList ++ parsedMail.Body.data) := by
  have hTo : parsedOther.Header.Get "To".toList = parsedMail.Header.Get "To".toList := by
    rw [← Get_filter_ne parsedOther.Header "To".toList "From".toList (by decide), hsame,
      Get_filter_ne parsedMail.Header "To".toList "From".toList (by decide)]
  have hRT : parsedOther.Header.Get "Reply-To".toList
      = parsedMail.Header.Get "Reply-To".toList := by
    rw [← Get_filter_ne parsedOther.Header "Reply-To".toList "From".toList (by decide), hsame,
      Get_filter_ne parsedMail.Header "Reply-To".toList "From".toList (by decide)]
  have hfromM : forwardMail.from E parsedMail
      = (if Count (parsedMail.Header.Get "To".toList) "%s".toList = 1
          then E.Sprintf (parsedMail.Header.Get "To".toList) []
          else parsedMail.Header.Get "To".toList) := by
    unfold forwardMail.from
    simp only [hbad]
  have hfromO : forwardMail.from E parsedOther = forwardMail.from E parsedMail := by
    rw [hfromM]
    unfold forwardMail.from
    simp only [hgood, hname, hTo]
  refine ⟨hfromM, hfromO, ?_, ?_⟩
  · intro hfail
    simp only [forwardMail, getFromS3, hget, hread, hgetO, hreadO, hfromO, hbody]
    cases hto : E.ParseAddress E.FORWARD_TO with
    | error e => exact ⟨_, rfl, rfl⟩
    | ok addrTo =>
      simp only
      cases hfr : E.ParseAddress (forwardMail.from E parsedMail) with
      | error e => exact ⟨_, rfl, rfl⟩
      | ok addrFrom =>
        simp only
        cases hb : parsedMail.Body.err with
        | some e => exact ⟨_, rfl, rfl⟩
        | none =>
          exfalso
          rcases hfail with ⟨e, h⟩ | ⟨e, h⟩ | ⟨e, h⟩
          · rw [hto] at h; exact absurd h (by simp)
          · rw [hfr] at h; exact absurd h (by simp)
          · rw [hb] at h; exact absurd h (by simp)
  · intro addrTo addrFrom hto hfr hb
    have hrunM : Composes E original past parsedMail addrFrom addrTo :=
      ⟨⟨s3Mail, hget, hread⟩, hto, hfr, hb⟩
    have hrunO : Composes E other past parsedOther addrFrom addrTo :=
      ⟨⟨s3Other, hgetO, hreadO⟩, hto, by rw [hfromO, hfr], by rw [hbody, hb]⟩
    rw [forwardMail_of_composes E original past parsedMail addrFrom addrTo hrunM,
      forwardMail_of_composes E other past parsedOther addrFrom addrTo hrunO]
    refine ⟨rfl, ?_, rfl, ?_, ?_⟩
    · cases E.SendRawEmail (past ++ [Event.GetObject E.S3_BUCKET original.MessageID])
        (forwardMail.newMail E parsedMail addrFrom addrTo) <;> simp
    · cases E.SendRawEmail (past ++ [Event.GetObject E.S3_BUCKET other.MessageID])
        (forwardMail.newMail E parsedOther addrFrom addrTo) <;> simp
    · have hcM : ∀ e ∈ parsedMail.Header, skipHeader e.1 = false →
          CanonicalMIMEHeaderKey e.1 = e.1 := fun e he _ => (hp.2 e he).1
      have hcO : ∀ e ∈ parsedOther.Header, skipHeader e.1 = false →
          CanonicalMIMEHeaderKey e.1 = e.1 := by
        intro e he hs
        have hne : e.1 ≠ "From".toList := by
          intro h
          rw [h] at hs
          exact absurd hs (by decide)
        have hmem : e ∈ parsedOther.Header.filter (fun e => e.1 != "From".toList) :=
          List.mem_filter.mpr ⟨he, by simpa using hne⟩
        rw [hsame] at hmem
        exact (hp.2 e (List.mem_of_mem_filter hmem)).1
      have hkept : keptLines parsedOther.Header parsedOther.Header
          = keptLines parsedMail.Header parsedMail.Header := by
        rw [keptLines_filter_From _ hcO, hsame, ← keptLines_filter_From _ hcM]
      refine ⟨writeLines (keptLines parsedMail.Header parsedMail.Header ++
          ["From: ".toList ++ E.AddressString addrFrom,
           "To: ".toList ++ E.AddressString addrTo]), ?_, ?_⟩
      · rw [newMail_reply_to]
        unfold forwardMail.rt
        by_cases hrt : parsedMail.Header.Get "Reply-To".toList = []
        · simp [hrt]
        · simp [hrt]
      · rw [newMail_reply_to, hkept, hbody]
        unfold forwardMail.rt
        rw [hRT]
        by_cases hrt : parsedMail.Header.Get "Reply-To".toList = []
        · simp [hrt]
        · simp [hrt]

/-- Witness of C10 as amended: the test message with `From: nobody`, next to the test
message, with a relay that accepts. The forward of the message without a sender goes
through. -/
theorem unparsable_From_is_not_fatal_witness :
    forwardMail.from twoMessages senderless = "ttt@example.com".toList
    ∧ (forwardMail twoMessages testRecord []).1 = .ret none
    ∧ (forwardMail twoMessages testRecord []).2
      = [] ++ [Event.GetObject "mail.clearbyte.io".toList testRecord.MessageID,
          Event.SendRawEmail (forwardMail.newMail twoMessages senderless
            ⟨[], "ttt@example.com".toList⟩ ⟨[], "john@clearbyte.com".toList⟩)] := by
  have h := unparsable_From_is_not_fatal twoMessages testRecord secondRecord []
    ⟨"raw 1".toList, none⟩ ⟨"raw 2".toList, none⟩ senderless (testMessage "hi".toList)
    "mail: missing '@' or angle-addr".toList ⟨[], "bubba@example.com".toList⟩
    rfl rfl rfl rfl rfl rfl rfl (by decide) rfl (by decide)
  have h4 := h.2.2.2 ⟨[], "john@clearbyte.com".toList⟩ ⟨[], "ttt@example.com".toList⟩
    rfl rfl rfl
  exact ⟨h.1.trans (by decide), h4.2.1.mpr rfl, h4.1⟩

/-- **C10** (as stated, refuted). With a relay that checks the `Reply-To` header, the
test message with `From: nobody` and the test message itself differ only in the `From`
header, the first `From` does not parse and the second parses with an empty display
name; yet the forward of the second returns nil and the forward of the first ends in
the panic of a rejected submission, because its `Reply-To` line carries `nobody`. -/
theorem unparsable_From_changes_the_outcome :
    twoMessagesStrict.ParseAddress (senderless.Header.Get "From".toList)
      = .error "mail: missing '@' or angle-addr".toList
    ∧ twoMessagesStrict.ParseAddress ((testMessage "hi".toList).Header.Get "From".toList)
      = .ok ⟨[], "bubba@example.com".toList⟩
    ∧ (testMessage "hi".toList).Header.filter (fun e => e.1 != "From".toList)
      = senderless.Header.filter (fun e => e.1 != "From".toList)
    ∧ (testMessage "hi".toList).Body = senderless.Body
    ∧ (forwardMail twoMessagesStrict secondRecord []).1 = .ret none
    ∧ forwardMail twoMessagesStrict testRecord []
      = (.panic "Error sending mail:  InvalidParameterValue: Missing final '@domain'\n".toList,
          [Event.GetObject "mail.clearbyte.io".toList testRecord.MessageID,
           Event.SendRawEmail ("Subject: Test\r\nFrom: <ttt@example.com>\r\n".toList ++
             "To: <john@clearbyte.com>\r\nReply-To: nobody\r\n\r\nhi".toList)])
    ∧ ¬ ((forwardMail twoMessagesStrict testRecord []).1 = .ret none
        ↔ (forwardMail twoMessagesStrict secondRecord []).1 = .ret none) := by
  refine ⟨rfl, rfl, by decide, by decide, by decide, by decide, by decide⟩

end SesEmailForwarder
